import Mathlib

/-!
Verification of the `wizarding-rs` front end (tokenizer and parser).

This file gives a shallow embedding, in Lean 4, of the tokenizer in
`src/lexer.rs` and the recursive-descent parser in `src/parser.rs`, and proves
properties of that embedding.

Modelling conventions:
* Rust `f64` literal values are modelled as exact rationals (`ℚ`).  Every
  numeric literal appearing in the properties below (`1.0`, `2.0`, …) is
  exactly representable as an `f64`, so `ℚ`-equality coincides with
  `f64`-equality on them.
* The regex scan of `TOKEN_RE` (a single alternation with leftmost-first
  alternative priority and greedy repetition) is modelled as a direct
  character scanner that tries the alternatives in the same priority order:
  ident, `🜹` (extern), `🜙` (def), number, `;`, `🜄`, `🜂`, `🜌`, and the
  catch-all single non-whitespace character operator.  A position where no
  alternative matches (a whitespace character) produces no token and the scan
  moves on, exactly as `captures_iter` does.
* The regex class `\d` is Unicode-aware in the `regex` crate — it is the
  full general category `\p{Nd}`, modelled here by its range table `isNd` —
  while Rust's `f64::from_str` accepts only ASCII digits; so the two
  disagree, and the `expect` on the numeric parse is a reachable failure.
  The classes `\p{Alphabetic}` and the non-`Nd` parts of `\w` are modelled
  on their ASCII fragments: all characters relevant to the claims are
  ASCII, non-ASCII `Nd` digits, or the five alchemical symbols (category
  `So`, in none of these classes).
* Fallible points of the Rust code are modelled with `Option`: `none`
  corresponds to the `panic!`/`expect` branches of `lex` (for the scanner,
  the only such point is the `.parse::<f64>().expect(..)` call in the number
  arm, reachable on non-ASCII `Nd` digits; the `unknown token` panic has no
  counterpart because every alternative of `TOKEN_RE` carries a named
  capture group) and, in the parser, to fuel exhaustion of the explicit fuel
  argument that stands in for Rust's call stack.  Recoverable parser
  failures use `Except ParserError`.
* Rust's `lex` returns the token vector reversed, so that the parser can pop
  the next token from the *end* of the `Vec`.  `lexTokens` below is the
  source-order token list; `lex` is its reversal, exactly as in Rust.  The
  parser consumes a source-order list from the head, which is the same
  consumption sequence as popping the reversed vector from the end.
-/

namespace Wizarding

/-- Tokens of the language, from `Token` in `src/lexer.rs`.  `Number` carries
the exact rational value of the decimal literal (modelling `f64`). -/
inductive Token where
  | Def
  | Extern
  | Delimiter
  | OpenParen
  | CloseParen
  | Comma
  | Ident (s : String)
  | Operator (s : String)
  | Number (v : ℚ)
deriving DecidableEq, Repr

/-- Model of `\p{Alphabetic}` from the `ident` alternative of `TOKEN_RE`,
restricted to its ASCII fragment (the alchemical symbols 🜙 🜹 🜄 🜂 🜌 are
category `So`, not Alphabetic, so they are correctly rejected here). -/
def isAlphabetic (c : Char) : Bool := c.isAlpha

/-- The ranges of the Unicode general category `Nd` (decimal digit), as of
Unicode 14.0, each given as an inclusive pair of code points. -/
def ndRanges : List (Nat × Nat) :=
  [(0x30, 0x39), (0x660, 0x669), (0x6F0, 0x6F9), (0x7C0, 0x7C9),
   (0x966, 0x96F), (0x9E6, 0x9EF), (0xA66, 0xA6F), (0xAE6, 0xAEF),
   (0xB66, 0xB6F), (0xBE6, 0xBEF), (0xC66, 0xC6F), (0xCE6, 0xCEF),
   (0xD66, 0xD6F), (0xDE6, 0xDEF), (0xE50, 0xE59), (0xED0, 0xED9),
   (0xF20, 0xF29), (0x1040, 0x1049), (0x1090, 0x1099), (0x17E0, 0x17E9),
   (0x1810, 0x1819), (0x1946, 0x194F), (0x19D0, 0x19D9), (0x1A80, 0x1A89),
   (0x1A90, 0x1A99), (0x1B50, 0x1B59), (0x1BB0, 0x1BB9), (0x1C40, 0x1C49),
   (0x1C50, 0x1C59), (0xA620, 0xA629), (0xA8D0, 0xA8D9), (0xA900, 0xA909),
   (0xA9D0, 0xA9D9), (0xA9F0, 0xA9F9), (0xAA50, 0xAA59), (0xABF0, 0xABF9),
   (0xFF10, 0xFF19), (0x104A0, 0x104A9), (0x10D30, 0x10D39),
   (0x11066, 0x1106F), (0x110F0, 0x110F9), (0x11136, 0x1113F),
   (0x111D0, 0x111D9), (0x112F0, 0x112F9), (0x11450, 0x11459),
   (0x114D0, 0x114D9), (0x11650, 0x11659), (0x116C0, 0x116C9),
   (0x11730, 0x11739), (0x118E0, 0x118E9), (0x11950, 0x11959),
   (0x11C50, 0x11C59), (0x11D50, 0x11D59), (0x11DA0, 0x11DA9),
   (0x16A60, 0x16A69), (0x16AC0, 0x16AC9), (0x16B50, 0x16B59),
   (0x1D7CE, 0x1D7FF), (0x1E140, 0x1E149), (0x1E2F0, 0x1E2F9),
   (0x1E950, 0x1E959), (0x1FBF0, 0x1FBF9)]

/-- Model of the regex class `\d`, which in the `regex` crate's default
Unicode mode is the full general category `\p{Nd}` — it contains the ASCII
digits `0-9` and the non-ASCII decimal digits (for example `١`, U+0661). -/
def isNd (c : Char) : Bool :=
  ndRanges.any fun r => r.1 ≤ c.toNat && c.toNat ≤ r.2

/-- Model of the regex class `\w`
(`[\p{Alphabetic}\p{M}\p{Nd}\p{Pc}\p{Join_Control}]`): the ASCII fragment of
`Alphabetic`, the full `Nd` digit category, and `_` (the ASCII member of
`Pc`); combining marks and join controls are omitted. -/
def isWordChar (c : Char) : Bool := c.isAlpha || isNd c || c = '_'

/-- Numeric value of a digit string, most significant digit first. -/
def digitsToNat (ds : List Char) : Nat :=
  ds.foldl (fun a c => 10 * a + (c.toNat - 48)) 0

/-- Model of Rust's `str::parse::<f64>` restricted to unsigned plain decimal
forms (no sign, exponent, `inf` or `nan`) — the only shapes the `number`
alternative `\d+\.?\d*` of `TOKEN_RE` can hand to it.  Rust accepts `digits`,
`digits.`, `digits.digits` and `.digits` made of ASCII digits only — a
non-ASCII `Nd` digit in the lexeme is a parse error (`none`), even though
the regex `\d` matched it.  The value is returned as an exact rational. -/
def parseF64 (s : List Char) : Option ℚ :=
  match s.dropWhile Char.isDigit with
  | [] =>
    if (s.takeWhile Char.isDigit).isEmpty then none
    else some (mkRat (digitsToNat (s.takeWhile Char.isDigit)) 1)
  | '.' :: r =>
    if (r.dropWhile Char.isDigit).isEmpty then
      if (s.takeWhile Char.isDigit).isEmpty && (r.takeWhile Char.isDigit).isEmpty
      then none
      else some (mkRat (digitsToNat (s.takeWhile Char.isDigit ++ r.takeWhile Char.isDigit))
        (10 ^ (r.takeWhile Char.isDigit).length))
    else none
  | _ => none

/-- Character scan underlying comment stripping: when `inComment` is set the
current character is inside a `#…` comment and is dropped until the next
newline (which is kept, since `.` does not match `\n`). -/
def preprocessAux (inComment : Bool) : List Char → List Char
  | [] => []
  | c :: cs =>
    if inComment then
      if c = '\n' then c :: preprocessAux false cs else preprocessAux true cs
    else if c = '#' then preprocessAux true cs
    else c :: preprocessAux false cs

/-- Comment stripping, from `preprocess` in `src/lexer.rs`: the regex
`(?m)#.*$` deletes every maximal run from a `#` to the end of its line. -/
def preprocess (input : List Char) : List Char := preprocessAux false input

/-- The token scan of `lex` in `src/lexer.rs`: successive non-overlapping
matches of `TOKEN_RE`, whose alternatives are tried in order
`ident`, `extern` (🜹), `def` (🜙), `number`, `delimiter` (;), `oppar` (🜄),
`clpar` (🜂), `comma` (🜌), `operator` (`\S`); `ident` and `number` repetition
is greedy (maximal munch).  Tokens are produced in source order; `fuel`
bounds the number of scan steps (any `fuel ≥` input length suffices).
`none` arises from fuel exhaustion or from the `expect` on the numeric
parse — the latter is reachable, because the `number` rule `\d+\.?\d*`
matches non-ASCII `Nd` digits that `f64::from_str` rejects. -/
def scanTokens : Nat → List Char → Option (List Token)
  | _, [] => some []
  | 0, _ => none
  | fuel+1, c :: cs =>
    if isAlphabetic c then
      (scanTokens fuel (cs.dropWhile isWordChar)).map
        (Token.Ident (String.mk (c :: cs.takeWhile isWordChar)) :: ·)
    else if c = '🜹' then (scanTokens fuel cs).map (Token.Extern :: ·)
    else if c = '🜙' then (scanTokens fuel cs).map (Token.Def :: ·)
    else if isNd c then
      match cs.dropWhile isNd with
      | '.' :: r =>
        match parseF64 (c :: cs.takeWhile isNd ++ '.' :: r.takeWhile isNd) with
        | some v => (scanTokens fuel (r.dropWhile isNd)).map (Token.Number v :: ·)
        | none => none
      | rest =>
        match parseF64 (c :: cs.takeWhile isNd) with
        | some v => (scanTokens fuel rest).map (Token.Number v :: ·)
        | none => none
    else if c = ';' then (scanTokens fuel cs).map (Token.Delimiter :: ·)
    else if c = '🜄' then (scanTokens fuel cs).map (Token.OpenParen :: ·)
    else if c = '🜂' then (scanTokens fuel cs).map (Token.CloseParen :: ·)
    else if c = '🜌' then (scanTokens fuel cs).map (Token.Comma :: ·)
    else if c.isWhitespace then scanTokens fuel cs
    else (scanTokens fuel cs).map (Token.Operator (String.mk [c]) :: ·)

/-- The tokens of an input, in source order: comment stripping followed by the
`TOKEN_RE` scan (with always-sufficient fuel). -/
def lexTokens (input : List Char) : Option (List Token) :=
  scanTokens (preprocess input).length (preprocess input)

/-- Model of `lex` in `src/lexer.rs`: the scanned tokens, reversed into the
stack the Rust parser pops from the end of. -/
def lex (input : List Char) : Option (List Token) :=
  (lexTokens input).map List.reverse

/-- Source-order tokens of a string literal. -/
def lexStr (s : String) : Option (List Token) := lexTokens s.data

example : lexStr "🜙add🜄x🜂x+1.0;" =
    some [Token.Def, Token.Ident "add", Token.OpenParen, Token.Ident "x",
      Token.CloseParen, Token.Ident "x", Token.Operator "+", Token.Number 1,
      Token.Delimiter] := by decide

example : lexStr "def func(x) x + 1;" =
    some [Token.Ident "def", Token.Ident "func", Token.Operator "(",
      Token.Ident "x", Token.Operator ")", Token.Ident "x", Token.Operator "+",
      Token.Number 1, Token.Delimiter] := by decide

example : preprocess "# somebody \na".data = "\na".data := by decide

/-! ### AST data model, from `src/ast.rs` -/

/-- Function signature, from `Prototype` in `src/ast.rs`. -/
structure Prototype where
  name : String
  args : List String
deriving DecidableEq, Repr

/-- Expression trees, from `Expression` in `src/ast.rs`.  Literals carry the
exact rational value of the `f64`. -/
inductive Expression where
  | Literal (v : ℚ)
  | Variable (name : String)
  | Binary (op : String) (lhs rhs : Expression)
  | Call (callee : String) (args : List Expression)

/-- Function definition, from `Function` in `src/ast.rs`. -/
structure Function where
  prototype : Prototype
  body : Expression

/-- Top-level AST nodes, from `ASTNode` in `src/ast.rs`. -/
inductive ASTNode where
  | Extern (proto : Prototype)
  | Function (f : Function)

/-! ### Parser, from `src/parser.rs` -/

/-- Parser errors, from `ParserError` in `src/parser.rs`. -/
inductive ParserError where
  | InvalidToken (tok : Token)
  | InvalidOperator (op : String)
  | UnexpectedEOF
deriving DecidableEq, Repr

/-- Parser configuration, from the `Parser` struct in `src/parser.rs`: the
operator-precedence table, modelled as a partial map. -/
structure Parser where
  operatorPrecedence : String → Option Nat

/-- The `Default` instance of `Parser` in `src/parser.rs`:
`*` and `/` bind with power 40, `+` and `-` with power 20. -/
def defaultParser : Parser where
  operatorPrecedence := fun s =>
    if s = "*" then some 40
    else if s = "/" then some 40
    else if s = "+" then some 20
    else if s = "-" then some 20
    else none

/-- Outcome of one parsing function: `none` models fuel exhaustion (Rust's
call stack stands in for the fuel and never runs out on the inputs considered
here); otherwise a `ParserError` or a value together with the remaining
tokens of the mutably shrunk input. -/
abbrev PResult (α : Type) := Option (Except ParserError (α × List Token))

/-- Success with remaining input. -/
def pok {α : Type} (a : α) (ts : List Token) : PResult α := some (.ok (a, ts))

/-- Parser failure (Rust's early `return Err(..)`). -/
def perr {α : Type} (e : ParserError) : PResult α := some (.error e)

/-- Sequencing of parsing steps: propagate fuel exhaustion and errors
(Rust's `?`), otherwise continue with the value and the remaining input. -/
def pbind {α β : Type} (x : PResult α) (f : α → List Token → PResult β) : PResult β :=
  match x with
  | none => none
  | some (.error e) => some (.error e)
  | some (.ok (a, ts)) => f a ts

/-- `Parser::parse_number`: pop a `Number` token into a `Literal`
(`extract_token!` yields `InvalidToken` on a wrong token and `UnexpectedEOF`
on an empty input). -/
def parseNumber (input : List Token) : PResult Expression :=
  match input with
  | .Number n :: rest => pok (.Literal n) rest
  | tok :: _ => perr (.InvalidToken tok)
  | [] => perr .UnexpectedEOF

mutual

/-- `Parser::parse_primary`: dispatch on the next token — number, identifier,
parenthesised expression; any other token is `InvalidToken`, an exhausted
input is `UnexpectedEOF`. -/
def parsePrimary (p : Parser) : Nat → List Token → PResult Expression
  | 0, _ => none
  | fuel+1, input =>
    match input with
    | .Number _ :: _ => parseNumber input
    | .Ident _ :: _ => parseIdentifier p fuel input
    | .OpenParen :: _ => parseNested p fuel input
    | tok :: _ => perr (.InvalidToken tok)
    | [] => perr .UnexpectedEOF

/-- `Parser::parse_identifier`: pop an `Ident`; if an `OpenParen` follows,
parse a comma-separated argument list into a `Call` (empty list allowed),
otherwise produce a `Variable`. -/
def parseIdentifier (p : Parser) : Nat → List Token → PResult Expression
  | 0, _ => none
  | fuel+1, input =>
    match input with
    | .Ident id :: .OpenParen :: rest =>
      if rest.head? = some .CloseParen then
        pok (.Call id []) rest.tail
      else
        pbind (parseArgs p fuel [] rest) fun args rest1 =>
          match rest1 with
          | .CloseParen :: rest2 => pok (.Call id args) rest2
          | tok :: _ => perr (.InvalidToken tok)
          | [] => perr .UnexpectedEOF
    | .Ident id :: rest => pok (.Variable id) rest
    | tok :: _ => perr (.InvalidToken tok)
    | [] => perr .UnexpectedEOF

/-- The call-argument loop of `Parser::parse_identifier`: parse an expression,
then either continue past a `Comma`, stop before a `CloseParen` (which the
caller consumes), or fail. -/
def parseArgs (p : Parser) : Nat → List Expression → List Token → PResult (List Expression)
  | 0, _, _ => none
  | fuel+1, args, input =>
    pbind (parseExpr p fuel input) fun e rest =>
      match rest with
      | .Comma :: rest1 => parseArgs p fuel (args ++ [e]) rest1
      | .CloseParen :: _ => pok (args ++ [e]) rest
      | tok :: _ => perr (.InvalidToken tok)
      | [] => perr .UnexpectedEOF

/-- `Parser::parse_nested`: `OpenParen`, a full expression, `CloseParen`. -/
def parseNested (p : Parser) : Nat → List Token → PResult Expression
  | 0, _ => none
  | fuel+1, input =>
    match input with
    | .OpenParen :: rest =>
      pbind (parseExpr p fuel rest) fun e rest1 =>
        match rest1 with
        | .CloseParen :: rest2 => pok e rest2
        | tok :: _ => perr (.InvalidToken tok)
        | [] => perr .UnexpectedEOF
    | tok :: _ => perr (.InvalidToken tok)
    | [] => perr .UnexpectedEOF

/-- `Parser::parse_rhs` with accumulated left-hand side `result`: while the
next token is an `Operator` found in the table with binding power
`≥ prec`, consume it, parse the right-hand side with a recursive
`parse_expr` call, possibly absorb a strictly-higher-precedence suffix, and
fold into a `Binary` node; an `Operator` missing from the table is an
`InvalidOperator` error; any other next token ends the loop. -/
def parseRhs (p : Parser) : Nat → Nat → Expression → List Token → PResult Expression
  | 0, _, _, _ => none
  | fuel+1, prec, result, input =>
    match input with
    | .Operator op :: rest =>
      match p.operatorPrecedence op with
      | some pr =>
        if prec ≤ pr then
          pbind (parseExpr p fuel rest) fun rhs0 rest1 =>
            pbind
              (match rest1 with
               | .Operator op2 :: _ =>
                 match p.operatorPrecedence op2 with
                 | some np =>
                   if pr < np then parseRhs p fuel (pr + 1) rhs0 rest1
                   else pok rhs0 rest1
                 | none => perr (.InvalidOperator op2)
               | _ => pok rhs0 rest1)
              fun rhs rest2 => parseRhs p fuel prec (.Binary op result rhs) rest2
        else pok result input
      | none => perr (.InvalidOperator op)
    | _ => pok result input

/-- `Parser::parse_expr`: a primary followed by `parse_rhs` at minimum
binding power `0`. -/
def parseExpr (p : Parser) : Nat → List Token → PResult Expression
  | 0, _ => none
  | fuel+1, input =>
    pbind (parsePrimary p fuel input) fun lhs rest =>
      parseRhs p fuel 0 lhs rest

end

/-- The parameter loop of `Parser::parse_prototype`
(`while let Some(Token::Ident(..)) = input.pop()`): a popped non-`Ident`
token ends the loop silently, with that token already consumed; after an
`Ident`, a `Comma` continues the loop and a `CloseParen` stops before it. -/
def parseProtoArgs : Nat → List String → List Token → PResult (List String)
  | 0, _, _ => none
  | fuel+1, args, input =>
    match input with
    | .Ident id :: .Comma :: rest => parseProtoArgs fuel (args ++ [id]) rest
    | .Ident id :: .CloseParen :: rest => pok (args ++ [id]) (.CloseParen :: rest)
    | .Ident _ :: tok :: _ => perr (.InvalidToken tok)
    | [.Ident _] => perr .UnexpectedEOF
    | _ :: rest => pok args rest
    | [] => pok args []

/-- `Parser::parse_prototype`: an `Ident` (the name), `OpenParen`, the
parameter loop (skipped entirely when a `CloseParen` follows at once), then
`CloseParen`. -/
def parsePrototype (_p : Parser) : Nat → List Token → PResult Prototype
  | 0, _ => none
  | fuel+1, input =>
    match input with
    | .Ident name :: .OpenParen :: rest =>
      pbind
        (if rest.head? = some .CloseParen then pok [] rest
         else parseProtoArgs fuel [] rest)
        fun args rest1 =>
          match rest1 with
          | .CloseParen :: rest2 => pok ⟨name, args⟩ rest2
          | tok :: _ => perr (.InvalidToken tok)
          | [] => perr .UnexpectedEOF
    | .Ident _ :: tok :: _ => perr (.InvalidToken tok)
    | [.Ident _] => perr .UnexpectedEOF
    | tok :: _ => perr (.InvalidToken tok)
    | [] => perr .UnexpectedEOF

/-- `Parser::parse_function`: discard the leading token (the `Def` the caller
dispatched on), then a prototype and a body expression. -/
def parseFunction (p : Parser) : Nat → List Token → PResult ASTNode
  | 0, _ => none
  | fuel+1, input =>
    pbind (parsePrototype p fuel input.tail) fun proto rest =>
      pbind (parseExpr p fuel rest) fun body rest1 =>
        pok (.Function ⟨proto, body⟩) rest1

/-- `Parser::parse_extern`: discard the leading `Extern`, then a prototype. -/
def parseExternDecl (p : Parser) : Nat → List Token → PResult ASTNode
  | 0, _ => none
  | fuel+1, input =>
    pbind (parsePrototype p fuel input.tail) fun proto rest =>
      pok (.Extern proto) rest

/-- `Parser::parse_lambda`: wrap a bare expression as an anonymous `Function`
with empty name and empty parameter list. -/
def parseLambda (p : Parser) : Nat → List Token → PResult ASTNode
  | 0, _ => none
  | fuel+1, input =>
    pbind (parseExpr p fuel input) fun body rest =>
      pok (.Function ⟨⟨"", []⟩, body⟩) rest

/-- Continuation step of the top-level loop of `Parser::parse`: parse one
item, then the rest of the program, and cons the results. -/
def consNode (x : PResult ASTNode)
    (k : List Token → Option (Except ParserError (List ASTNode))) :
    Option (Except ParserError (List ASTNode)) :=
  match x with
  | none => none
  | some (.error e) => some (.error e)
  | some (.ok (node, rest)) =>
    match k rest with
    | none => none
    | some (.error e) => some (.error e)
    | some (.ok nodes) => some (.ok (node :: nodes))

/-- `Parser::parse`: the top-level dispatch loop — `Def` starts a function
definition, `Extern` an external declaration, `Delimiter` is discarded, and
anything else is parsed as an anonymous-function lambda; the loop runs until
the input is exhausted. -/
def parse (p : Parser) : Nat → List Token → Option (Except ParserError (List ASTNode))
  | 0, _ => none
  | fuel+1, input =>
    match input with
    | [] => some (.ok [])
    | .Def :: _ => consNode (parseFunction p fuel input) (fun rest => parse p fuel rest)
    | .Extern :: _ => consNode (parseExternDecl p fuel input) (fun rest => parse p fuel rest)
    | .Delimiter :: rest => parse p fuel rest
    | _ => consNode (parseLambda p fuel input) (fun rest => parse p fuel rest)

/-- Fuel that is ample for any token list: the recursion depth of the parser
is bounded by a small multiple of the token count. -/
def fuelFor (ts : List Token) : Nat := 8 * ts.length + 16

/-- `Parser::parse_str`: lex, then parse the whole token sequence.  The Rust
code pops the reversed token vector from its end; consuming the source-order
list from the head is the identical consumption sequence. -/
def parseStr (p : Parser) (s : String) : Option (Except ParserError (List ASTNode)) :=
  match lexTokens s.data with
  | none => none
  | some ts => parse p (fuelFor ts) ts

/-- Lex a string and run `Parser::parse_expr` on the token sequence, as the
expression-level tests in `src/parser.rs` do. -/
def parseExprStr (p : Parser) (s : String) : PResult Expression :=
  match lexTokens s.data with
  | none => none
  | some ts => parseExpr p (fuelFor ts) ts

/-! ### Helper lemmas -/

theorem count_takeWhile_zero {p : Char → Bool} {c : Char} (hc : p c = false)
    (l : List Char) : (l.takeWhile p).count c = 0 := by
  rw [List.count_eq_zero]
  intro hmem
  have := List.mem_takeWhile_imp hmem
  rw [hc] at this
  exact Bool.false_ne_true this

theorem count_dropWhile_eq {p : Char → Bool} {c : Char} (hc : p c = false)
    (l : List Char) : (l.dropWhile p).count c = l.count c := by
  conv_rhs => rw [← List.takeWhile_append_dropWhile p l]
  rw [List.count_append, count_takeWhile_zero hc, Nat.zero_add]

theorem takeWhile_eq_self_of_all {p : Char → Bool} :
    ∀ l : List Char, (∀ x ∈ l, p x = true) → l.takeWhile p = l
  | [], _ => rfl
  | c :: cs, h => by
    simp only [List.takeWhile_cons, h c (List.mem_cons_self c cs), if_true,
      takeWhile_eq_self_of_all cs fun x hx => h x (List.mem_cons_of_mem c hx)]

theorem dropWhile_eq_nil_of_all {p : Char → Bool} :
    ∀ l : List Char, (∀ x ∈ l, p x = true) → l.dropWhile p = []
  | [], _ => rfl
  | c :: cs, h => by
    simp only [List.dropWhile_cons, h c (List.mem_cons_self c cs), if_true]
    exact dropWhile_eq_nil_of_all cs fun x hx => h x (List.mem_cons_of_mem c hx)

theorem dropWhile_append_stop {p : Char → Bool} {x : Char} (hx : p x = false) :
    ∀ (l₁ l₂ : List Char), (∀ y ∈ l₁, p y = true) →
      (l₁ ++ x :: l₂).dropWhile p = x :: l₂
  | [], l₂, _ => by simp [List.dropWhile_cons, hx]
  | c :: cs, l₂, h => by
    simp only [List.cons_append, List.dropWhile_cons, h c (List.mem_cons_self c cs), if_true]
    exact dropWhile_append_stop hx cs l₂ fun y hy => h y (List.mem_cons_of_mem c hy)

theorem mk_singleton_inj {d e : Char} : String.mk [d] = String.mk [e] ↔ d = e := by
  constructor
  · intro h
    injection h with h1
    injection h1
  · intro h
    rw [h]

/-- Both sides of the count bookkeeping gain the same increment when one
token is emitted for one consumed character. -/
theorem count_step {t tok : Token} {c a : Char} {ts : List Token} {l : List Char}
    (hiff : t = tok ↔ c = a) (hrec : ts.count t = l.count c) :
    (tok :: ts).count t = (a :: l).count c := by
  rw [List.count_cons, List.count_cons, hrec]
  by_cases hEq : t = tok
  · simp [hEq, hiff.mp hEq]
  · have hEq2 : ¬tok = t := fun h => hEq h.symm
    have hac : ¬c = a := fun h => hEq (hiff.mpr h)
    have hac2 : ¬a = c := fun h => hac h.symm
    simp [hEq, hEq2, hac, hac2]

set_option maxHeartbeats 1600000 in
/-- Count bookkeeping of the whole `TOKEN_RE` scan: under the side conditions
relating the token `t` to the character `c` (satisfied by every fixed lexeme
of `TOKEN_RE` and by every single-character operator), the scan emits exactly
one `t` per occurrence of `c`. -/
theorem scanTokens_count (t : Token) (c : Char)
    (hA : isAlphabetic c = false)
    (hW : isWordChar c = false)
    (hD : isNd c = false)
    (hDot : c ≠ '.')
    (hWS : c.isWhitespace = false)
    (hIdent : ∀ s, t ≠ .Ident s)
    (hNum : ∀ v, t ≠ .Number v)
    (hExtern : t = .Extern ↔ c = '🜹')
    (hDef : t = .Def ↔ c = '🜙')
    (hDelim : t = .Delimiter ↔ c = ';')
    (hOP : t = .OpenParen ↔ c = '🜄')
    (hCP : t = .CloseParen ↔ c = '🜂')
    (hComma : t = .Comma ↔ c = '🜌')
    (hOp : ∀ d : Char, isAlphabetic d = false → d ≠ '🜹' → d ≠ '🜙' →
        isNd d = false → d ≠ ';' → d ≠ '🜄' → d ≠ '🜂' → d ≠ '🜌' →
        d.isWhitespace = false → (t = .Operator (String.mk [d]) ↔ c = d)) :
    ∀ (fuel : Nat) (cs : List Char) (ts : List Token),
      scanTokens fuel cs = some ts → ts.count t = cs.count c := by
  intro fuel
  induction fuel with
  | zero =>
    intro cs ts h
    cases cs with
    | nil =>
      simp only [scanTokens, Option.some.injEq] at h
      subst h
      rfl
    | cons a l => simp [scanTokens] at h
  | succ n ih =>
    intro cs ts h
    cases cs with
    | nil =>
      simp only [scanTokens, Option.some.injEq] at h
      subst h
      rfl
    | cons a l =>
      simp only [scanTokens] at h
      split_ifs at h with h1 h2 h3 h4 h5 h6 h7 h8 h9
      · -- ident: one `Ident` token for `a` and the following word characters
        rcases Option.map_eq_some'.mp h with ⟨ts1, hscan, rfl⟩
        have hca : ¬c = a := fun hh => by rw [hh] at hA; rw [h1] at hA; cases hA
        have etok : (Token.Ident (String.mk (a :: l.takeWhile isWordChar)) == t) = false :=
          beq_eq_false_iff_ne.mpr fun hh => hIdent _ hh.symm
        have echar : (a == c) = false := beq_eq_false_iff_ne.mpr fun hh => hca hh.symm
        rw [List.count_cons, List.count_cons, etok, echar, ih _ _ hscan,
          count_dropWhile_eq hW]
      · -- 🜹 yields `Extern`
        rcases Option.map_eq_some'.mp h with ⟨ts1, hscan, rfl⟩
        exact count_step (by rw [h2]; exact hExtern) (ih _ _ hscan)
      · -- 🜙 yields `Def`
        rcases Option.map_eq_some'.mp h with ⟨ts1, hscan, rfl⟩
        exact count_step (by rw [h3]; exact hDef) (ih _ _ hscan)
      · -- number: one `Number` token for the digits (and possible dot)
        have hca : ¬c = a := fun hh => by rw [hh] at hD; rw [h4] at hD; cases hD
        have echar : (a == c) = false := beq_eq_false_iff_ne.mpr fun hh => hca hh.symm
        split at h
        next r heq =>
          split at h
          next v hv =>
            rcases Option.map_eq_some'.mp h with ⟨ts1, hscan, rfl⟩
            have etok : (Token.Number v == t) = false :=
              beq_eq_false_iff_ne.mpr fun hh => hNum _ hh.symm
            have edot : (('.' : Char) == c) = false :=
              beq_eq_false_iff_ne.mpr fun hh => hDot hh.symm
            rw [List.count_cons, List.count_cons, etok, echar, ih _ _ hscan]
            conv_rhs => rw [← List.takeWhile_append_dropWhile isNd l, heq]
            rw [List.count_append, count_takeWhile_zero hD, List.count_cons,
              count_dropWhile_eq hD, edot]
            simp
          next => cases h
        next heq =>
          split at h
          next v hv =>
            rcases Option.map_eq_some'.mp h with ⟨ts1, hscan, rfl⟩
            have etok : (Token.Number v == t) = false :=
              beq_eq_false_iff_ne.mpr fun hh => hNum _ hh.symm
            rw [List.count_cons, List.count_cons, etok, echar, ih _ _ hscan,
              count_dropWhile_eq hD]
          next => cases h
      · -- `;` yields `Delimiter`
        rcases Option.map_eq_some'.mp h with ⟨ts1, hscan, rfl⟩
        exact count_step (by rw [h5]; exact hDelim) (ih _ _ hscan)
      · -- 🜄 yields `OpenParen`
        rcases Option.map_eq_some'.mp h with ⟨ts1, hscan, rfl⟩
        exact count_step (by rw [h6]; exact hOP) (ih _ _ hscan)
      · -- 🜂 yields `CloseParen`
        rcases Option.map_eq_some'.mp h with ⟨ts1, hscan, rfl⟩
        exact count_step (by rw [h7]; exact hCP) (ih _ _ hscan)
      · -- 🜌 yields `Comma`
        rcases Option.map_eq_some'.mp h with ⟨ts1, hscan, rfl⟩
        exact count_step (by rw [h8]; exact hComma) (ih _ _ hscan)
      · -- whitespace: no token, and the character is not `c`
        have hca : ¬c = a := fun hh => by rw [hh] at hWS; rw [h9] at hWS; cases hWS
        have echar : (a == c) = false := beq_eq_false_iff_ne.mpr fun hh => hca hh.symm
        rw [List.count_cons, echar]
        simpa using ih _ _ h
      · -- catch-all: one single-character `Operator` token
        rcases Option.map_eq_some'.mp h with ⟨ts1, hscan, rfl⟩
        exact count_step
          (hOp a (Bool.eq_false_iff.mpr h1) h2 h3 (Bool.eq_false_iff.mpr h4)
            h5 h6 h7 h8 (Bool.eq_false_iff.mpr h9))
          (ih _ _ hscan)

theorem takeWhile_append_stop {p : Char → Bool} {x : Char} (hx : p x = false) :
    ∀ (l₁ l₂ : List Char), (∀ y ∈ l₁, p y = true) →
      (l₁ ++ x :: l₂).takeWhile p = l₁
  | [], l₂, _ => by simp [List.takeWhile_cons, hx]
  | c :: cs, l₂, h => by
    simp only [List.cons_append, List.takeWhile_cons, h c (List.mem_cons_self c cs), if_true]
    rw [takeWhile_append_stop hx cs l₂ fun y hy => h y (List.mem_cons_of_mem c hy)]

/-- The numeric parse never fails on an undotted lexeme of the `number`
rule (a digit followed by further digits). -/
theorem parseF64_digits {a : Char} (ha : a.isDigit = true) (ds : List Char)
    (hds : ∀ d ∈ ds, d.isDigit = true) : (parseF64 (a :: ds)).isSome := by
  have hall : ∀ x ∈ a :: ds, Char.isDigit x = true := by
    intro x hx
    rcases List.mem_cons.mp hx with rfl | hx
    · exact ha
    · exact hds x hx
  have h1 : (a :: ds).dropWhile Char.isDigit = [] := dropWhile_eq_nil_of_all _ hall
  have h2 : (a :: ds).takeWhile Char.isDigit = a :: ds := takeWhile_eq_self_of_all _ hall
  simp [parseF64, h1, h2]

/-- The numeric parse never fails on a dotted lexeme of the `number` rule
(digits, a dot, then the following digits). -/
theorem parseF64_dotted {a : Char} (ha : a.isDigit = true) (ds fs : List Char)
    (hds : ∀ d ∈ ds, d.isDigit = true) (hfs : ∀ d ∈ fs, d.isDigit = true) :
    (parseF64 (a :: ds ++ '.' :: fs)).isSome := by
  have hdot : Char.isDigit '.' = false := by decide
  have hall : ∀ x ∈ a :: ds, Char.isDigit x = true := by
    intro x hx
    rcases List.mem_cons.mp hx with rfl | hx
    · exact ha
    · exact hds x hx
  have h1 : (a :: ds ++ '.' :: fs).dropWhile Char.isDigit = '.' :: fs :=
    dropWhile_append_stop hdot (a :: ds) fs hall
  have h2 : (a :: ds ++ '.' :: fs).takeWhile Char.isDigit = a :: ds :=
    takeWhile_append_stop hdot (a :: ds) fs hall
  have h3 : fs.dropWhile Char.isDigit = [] := dropWhile_eq_nil_of_all _ hfs
  rw [List.cons_append] at h1 h2
  simp [parseF64, h1, h2, h3]

set_option maxHeartbeats 1600000 in
/-- Conditional totality of the scan: with fuel at least the input length,
on an input whose digit-class (`Nd`) characters are all ASCII, every branch
of `scanTokens` produces a token list — the `expect` on the numeric parse
cannot fire there, because every `number` lexeme then consists of ASCII
digits, which `parseF64` accepts.  (Without that condition, a non-ASCII `Nd`
digit matches the `number` rule and the numeric parse fails.) -/
theorem scanTokens_isSome :
    ∀ (fuel : Nat) (cs : List Char), cs.length ≤ fuel →
      (∀ x ∈ cs, isNd x = true → x.isDigit = true) →
      (scanTokens fuel cs).isSome = true := by
  intro fuel
  induction fuel with
  | zero =>
    intro cs h hascii
    cases cs with
    | nil => simp [scanTokens]
    | cons a l => simp at h
  | succ n ih =>
    intro cs h hascii
    cases cs with
    | nil => simp [scanTokens]
    | cons a l =>
      have hl : l.length ≤ n := by simpa using h
      have hal : ∀ x ∈ l, isNd x = true → x.isDigit = true :=
        fun x hx => hascii x (List.mem_cons_of_mem a hx)
      simp only [scanTokens]
      split_ifs with h1 h2 h3 h4 h5 h6 h7 h8 h9
      · simpa using ih _ (le_trans (List.dropWhile_sublist _).length_le hl)
          (fun x hx => hal x ((List.dropWhile_sublist _).subset hx))
      · simpa using ih l hl hal
      · simpa using ih l hl hal
      · -- number branch: the lexeme is ASCII digits, so the parse succeeds
        have ha : a.isDigit = true := hascii a (List.mem_cons_self a l) h4
        have hds : ∀ d ∈ l.takeWhile isNd, d.isDigit = true :=
          fun d hd => hal d ((List.takeWhile_sublist _).subset hd)
            (List.mem_takeWhile_imp hd)
        split
        next r heq =>
          have hrsub : ∀ x ∈ r, x ∈ l := by
            intro x hx
            have hx2 : x ∈ '.' :: r := List.mem_cons_of_mem _ hx
            rw [← heq] at hx2
            exact (List.dropWhile_sublist _).subset hx2
          have hrlen : r.length + 1 ≤ l.length := by
            have := (List.dropWhile_sublist isNd (l := l)).length_le
            rw [heq] at this
            simpa using this
          have hfs : ∀ d ∈ r.takeWhile isNd, d.isDigit = true :=
            fun d hd => hal d (hrsub d ((List.takeWhile_sublist _).subset hd))
              (List.mem_takeWhile_imp hd)
          have hsome := parseF64_dotted ha (l.takeWhile isNd)
            (r.takeWhile isNd) hds hfs
          split
          next v hv =>
            have hlen : (r.dropWhile isNd).length ≤ n :=
              le_trans (List.dropWhile_sublist _).length_le
                (le_trans (Nat.le_of_succ_le hrlen) hl)
            have hdr : ∀ x ∈ r.dropWhile isNd, isNd x = true → x.isDigit = true :=
              fun x hx => hal x (hrsub x ((List.dropWhile_sublist _).subset hx))
            simpa using ih _ hlen hdr
          next hv =>
            rw [hv] at hsome
            cases hsome
        next heq =>
          have hsome := parseF64_digits ha (l.takeWhile isNd) hds
          split
          next v hv =>
            have hdw : ∀ x ∈ l.dropWhile isNd, isNd x = true → x.isDigit = true :=
              fun x hx => hal x ((List.dropWhile_sublist _).subset hx)
            simpa using ih _ (le_trans (List.dropWhile_sublist _).length_le hl) hdw
          next hv =>
            rw [hv] at hsome
            cases hsome
      · simpa using ih l hl hal
      · simpa using ih l hl hal
      · simpa using ih l hl hal
      · simpa using ih l hl hal
      · exact ih l hl hal
      · simpa using ih l hl hal

/-- Specialisation of the count bookkeeping to `Def` and 🜙. -/
theorem count_def_eq :
    ∀ (fuel : Nat) (cs : List Char) (ts : List Token), scanTokens fuel cs = some ts →
      ts.count .Def = cs.count '🜙' :=
  scanTokens_count .Def '🜙' (by decide) (by decide) (by decide) (by decide) (by decide)
    (fun _ h => Token.noConfusion h) (fun _ h => Token.noConfusion h)
    (by decide) (by decide) (by decide) (by decide) (by decide) (by decide)
    (fun _ _ _ h3 _ _ _ _ _ _ =>
      ⟨fun hh => Token.noConfusion hh, fun hh => absurd hh.symm h3⟩)

/-- Specialisation of the count bookkeeping to `Extern` and 🜹. -/
theorem count_extern_eq :
    ∀ (fuel : Nat) (cs : List Char) (ts : List Token), scanTokens fuel cs = some ts →
      ts.count .Extern = cs.count '🜹' :=
  scanTokens_count .Extern '🜹' (by decide) (by decide) (by decide) (by decide) (by decide)
    (fun _ h => Token.noConfusion h) (fun _ h => Token.noConfusion h)
    (by decide) (by decide) (by decide) (by decide) (by decide) (by decide)
    (fun _ _ h2 _ _ _ _ _ _ _ =>
      ⟨fun hh => Token.noConfusion hh, fun hh => absurd hh.symm h2⟩)

/-- Specialisation of the count bookkeeping to `OpenParen` and 🜄. -/
theorem count_openParen_eq :
    ∀ (fuel : Nat) (cs : List Char) (ts : List Token), scanTokens fuel cs = some ts →
      ts.count .OpenParen = cs.count '🜄' :=
  scanTokens_count .OpenParen '🜄' (by decide) (by decide) (by decide) (by decide) (by decide)
    (fun _ h => Token.noConfusion h) (fun _ h => Token.noConfusion h)
    (by decide) (by decide) (by decide) (by decide) (by decide) (by decide)
    (fun _ _ _ _ _ _ h6 _ _ _ =>
      ⟨fun hh => Token.noConfusion hh, fun hh => absurd hh.symm h6⟩)

/-- Specialisation of the count bookkeeping to `CloseParen` and 🜂. -/
theorem count_closeParen_eq :
    ∀ (fuel : Nat) (cs : List Char) (ts : List Token), scanTokens fuel cs = some ts →
      ts.count .CloseParen = cs.count '🜂' :=
  scanTokens_count .CloseParen '🜂' (by decide) (by decide) (by decide) (by decide) (by decide)
    (fun _ h => Token.noConfusion h) (fun _ h => Token.noConfusion h)
    (by decide) (by decide) (by decide) (by decide) (by decide) (by decide)
    (fun _ _ _ _ _ _ _ h7 _ _ =>
      ⟨fun hh => Token.noConfusion hh, fun hh => absurd hh.symm h7⟩)

/-- Specialisation of the count bookkeeping to `Comma` and 🜌. -/
theorem count_comma_eq :
    ∀ (fuel : Nat) (cs : List Char) (ts : List Token), scanTokens fuel cs = some ts →
      ts.count .Comma = cs.count '🜌' :=
  scanTokens_count .Comma '🜌' (by decide) (by decide) (by decide) (by decide) (by decide)
    (fun _ h => Token.noConfusion h) (fun _ h => Token.noConfusion h)
    (by decide) (by decide) (by decide) (by decide) (by decide) (by decide)
    (fun _ _ _ _ _ _ _ _ h8 _ =>
      ⟨fun hh => Token.noConfusion hh, fun hh => absurd hh.symm h8⟩)

/-- Specialisation of the count bookkeeping to `Delimiter` and `;`. -/
theorem count_delimiter_eq :
    ∀ (fuel : Nat) (cs : List Char) (ts : List Token), scanTokens fuel cs = some ts →
      ts.count .Delimiter = cs.count ';' :=
  scanTokens_count .Delimiter ';' (by decide) (by decide) (by decide) (by decide) (by decide)
    (fun _ h => Token.noConfusion h) (fun _ h => Token.noConfusion h)
    (by decide) (by decide) (by decide) (by decide) (by decide) (by decide)
    (fun _ _ _ _ _ h5 _ _ _ _ =>
      ⟨fun hh => Token.noConfusion hh, fun hh => absurd hh.symm h5⟩)

/-- Specialisation of the count bookkeeping to single-character `Operator`
tokens: a character outside every special lexical category lexes, at each of
its occurrences, to the `Operator` holding exactly that character. -/
theorem count_operator_eq (c : Char) (hA : isAlphabetic c = false)
    (hW : isWordChar c = false) (hD : isNd c = false) (hDot : c ≠ '.')
    (hWS : c.isWhitespace = false) (h1 : c ≠ '🜹') (h2 : c ≠ '🜙') (h3 : c ≠ ';')
    (h4 : c ≠ '🜄') (h5 : c ≠ '🜂') (h6 : c ≠ '🜌') :
    ∀ (fuel : Nat) (cs : List Char) (ts : List Token), scanTokens fuel cs = some ts →
      ts.count (.Operator (String.mk [c])) = cs.count c :=
  scanTokens_count (.Operator (String.mk [c])) c hA hW hD hDot hWS
    (fun _ h => Token.noConfusion h) (fun _ h => Token.noConfusion h)
    ⟨fun h => Token.noConfusion h, fun h => absurd h h1⟩
    ⟨fun h => Token.noConfusion h, fun h => absurd h h2⟩
    ⟨fun h => Token.noConfusion h, fun h => absurd h h3⟩
    ⟨fun h => Token.noConfusion h, fun h => absurd h h4⟩
    ⟨fun h => Token.noConfusion h, fun h => absurd h h5⟩
    ⟨fun h => Token.noConfusion h, fun h => absurd h h6⟩
    (fun d _ _ _ _ _ _ _ _ _ => by
      constructor
      · intro hh
        injection hh with hs
        exact mk_singleton_inj.mp hs
      · intro hh
        rw [hh])

/-! ### Claims -/

/-- Claim C1, counterexample: tokenizing `"def func(x) x + 1;"` does not
yield the claimed sequence — the lexemes `def`, `(`, `)` lex as
`Ident "def"`, `Operator "("`, `Operator ")"`, not as `Def`, `OpenParen`,
`CloseParen`. -/
theorem claim1_counterexample :
    lexStr "def func(x) x + 1;" =
      some [Token.Ident "def", .Ident "func", .Operator "(", .Ident "x",
        .Operator ")", .Ident "x", .Operator "+", .Number 1, .Delimiter] ∧
    some [Token.Ident "def", .Ident "func", .Operator "(", .Ident "x",
        .Operator ")", .Ident "x", .Operator "+", .Number 1, .Delimiter] ≠
      some [Token.Def, .Ident "func", .OpenParen, .Ident "x", .CloseParen,
        .Ident "x", .Operator "+", .Number 1, .Delimiter] :=
  ⟨rfl, by decide⟩

/-- Claim C1 as amended: the `Def` and `Extern` tokens are produced by the
alchemical symbols 🜙 and 🜹, while the ASCII lexemes `def` and `extern` are
ordinary identifiers; tokenizing `"def func(x) x + 1;"` yields
`Ident "def", Ident "func", Operator "(", Ident "x", Operator ")",
Ident "x", Operator "+", Number 1.0, Delimiter`, and tokenizing
`"🜙func🜄x🜂x + 1;"` yields `Def, Ident "func", OpenParen, Ident "x",
CloseParen, Ident "x", Operator "+", Number 1.0, Delimiter`. -/
theorem claim1_amended :
    lexStr "def extern" = some [Token.Ident "def", .Ident "extern"] ∧
    lexStr "🜙🜹" = some [Token.Def, .Extern] ∧
    lexStr "def func(x) x + 1;" =
      some [Token.Ident "def", .Ident "func", .Operator "(", .Ident "x",
        .Operator ")", .Ident "x", .Operator "+", .Number 1, .Delimiter] ∧
    lexStr "🜙func🜄x🜂x + 1;" =
      some [Token.Def, .Ident "func", .OpenParen, .Ident "x", .CloseParen,
        .Ident "x", .Operator "+", .Number 1, .Delimiter] :=
  ⟨rfl, rfl, rfl, rfl⟩

/-- Claim C2, counterexample: `(` does not lex to `OpenParen` — it lexes to
the catch-all `Operator "("` (and likewise `)` and `,` lex to operators). -/
theorem claim2_counterexample :
    lexStr "(),;" =
      some [Token.Operator "(", .Operator ")", .Operator ",", .Delimiter] ∧
    (Token.Operator "(" : Token) ≠ .OpenParen :=
  ⟨rfl, by decide⟩

/-- Claim C2 as amended: for every source text, `;` lexes to `Delimiter`
at each of its occurrences, while the ASCII characters `(`, `)` and `,` are
not special: each lexes to an `Operator` token holding exactly that
character; the `OpenParen`, `CloseParen` and `Comma` tokens are produced by
🜄, 🜂 and 🜌 instead. -/
theorem claim2_amended :
    (∀ (input : List Char) (ts : List Token), lexTokens input = some ts →
      ts.count .Delimiter = (preprocess input).count ';' ∧
      ts.count (.Operator "(") = (preprocess input).count '(' ∧
      ts.count (.Operator ")") = (preprocess input).count ')' ∧
      ts.count (.Operator ",") = (preprocess input).count ',' ∧
      ts.count .OpenParen = (preprocess input).count '🜄' ∧
      ts.count .CloseParen = (preprocess input).count '🜂' ∧
      ts.count .Comma = (preprocess input).count '🜌') ∧
    lexStr "(),;" =
      some [Token.Operator "(", .Operator ")", .Operator ",", .Delimiter] := by
  constructor
  · intro input ts h
    unfold lexTokens at h
    refine ⟨count_delimiter_eq _ _ _ h, ?_, ?_, ?_, count_openParen_eq _ _ _ h,
      count_closeParen_eq _ _ _ h, count_comma_eq _ _ _ h⟩
    · exact count_operator_eq '(' (by decide) (by decide) (by decide) (by decide)
        (by decide) (by decide) (by decide) (by decide) (by decide) (by decide)
        (by decide) _ _ _ h
    · exact count_operator_eq ')' (by decide) (by decide) (by decide) (by decide)
        (by decide) (by decide) (by decide) (by decide) (by decide) (by decide)
        (by decide) _ _ _ h
    · exact count_operator_eq ',' (by decide) (by decide) (by decide) (by decide)
        (by decide) (by decide) (by decide) (by decide) (by decide) (by decide)
        (by decide) _ _ _ h
  · rfl

/-- Claim C2, witness for the amended statement at the input `"(),;🜄🜂🜌"`. -/
theorem claim2_witness :
    lexTokens "(),;🜄🜂🜌".data =
      some [Token.Operator "(", .Operator ")", .Operator ",", .Delimiter,
        .OpenParen, .CloseParen, .Comma] ∧
    ([Token.Operator "(", .Operator ")", .Operator ",", .Delimiter,
        .OpenParen, .CloseParen, .Comma].count Token.Delimiter =
      (preprocess "(),;🜄🜂🜌".data).count ';' ∧
    [Token.Operator "(", .Operator ")", .Operator ",", .Delimiter,
        .OpenParen, .CloseParen, .Comma].count (Token.Operator "(") =
      (preprocess "(),;🜄🜂🜌".data).count '(' ∧
    [Token.Operator "(", .Operator ")", .Operator ",", .Delimiter,
        .OpenParen, .CloseParen, .Comma].count (Token.Operator ")") =
      (preprocess "(),;🜄🜂🜌".data).count ')' ∧
    [Token.Operator "(", .Operator ")", .Operator ",", .Delimiter,
        .OpenParen, .CloseParen, .Comma].count (Token.Operator ",") =
      (preprocess "(),;🜄🜂🜌".data).count ',' ∧
    [Token.Operator "(", .Operator ")", .Operator ",", .Delimiter,
        .OpenParen, .CloseParen, .Comma].count Token.OpenParen =
      (preprocess "(),;🜄🜂🜌".data).count '🜄' ∧
    [Token.Operator "(", .Operator ")", .Operator ",", .Delimiter,
        .OpenParen, .CloseParen, .Comma].count Token.CloseParen =
      (preprocess "(),;🜄🜂🜌".data).count '🜂' ∧
    [Token.Operator "(", .Operator ")", .Operator ",", .Delimiter,
        .OpenParen, .CloseParen, .Comma].count Token.Comma =
      (preprocess "(),;🜄🜂🜌".data).count '🜌') :=
  ⟨rfl, claim2_amended.1 "(),;🜄🜂🜌".data _ rfl⟩

/-- Claim C3: the expression `"1 - 2 - 3"` parses RIGHT-nested, as
`Binary("-", 1, Binary("-", 2, 3))` — `parse_rhs` parses its right-hand side
with a full recursive `parse_expr` call, so equal-precedence chains do not
fold to the left; the two nestings are distinct trees. -/
theorem claim3_eval :
    parseExprStr defaultParser "1 - 2 - 3" =
      pok (.Binary "-" (.Literal 1) (.Binary "-" (.Literal 2) (.Literal 3))) [] ∧
    (Expression.Binary "-" (.Literal 1) (.Binary "-" (.Literal 2) (.Literal 3)) ≠
      .Binary "-" (.Binary "-" (.Literal 1) (.Literal 2)) (.Literal 3)) :=
  ⟨rfl, by simp⟩

/-- Claim C4: the expression `"1 * 2 + 3"` parses as
`Binary("*", 1, Binary("+", 2, 3))` — after consuming `*`, the code absorbs
the whole remaining expression (including the lower-power `+`) into the
right-hand operand, not only a strictly-higher-precedence suffix; the
produced tree differs from the claimed `Binary("+", Binary("*",1,2), 3)`. -/
theorem claim4_eval :
    parseExprStr defaultParser "1 * 2 + 3" =
      pok (.Binary "*" (.Literal 1) (.Binary "+" (.Literal 2) (.Literal 3))) [] ∧
    (Expression.Binary "*" (.Literal 1) (.Binary "+" (.Literal 2) (.Literal 3)) ≠
      .Binary "+" (.Binary "*" (.Literal 1) (.Literal 2)) (.Literal 3)) :=
  ⟨rfl, by simp⟩

/-- Claim C5, counterexample: parsing `"(1 + )"` fails with
`InvalidToken(Operator "(")`, not with `InvalidToken(CloseParen)` — the
ASCII `(` lexes to an `Operator` token, which is invalid in primary
position. -/
theorem claim5_counterexample :
    parseExprStr defaultParser "(1 + )" = perr (.InvalidToken (.Operator "(")) ∧
    ParserError.InvalidToken (.Operator "(") ≠ .InvalidToken .CloseParen :=
  ⟨rfl, by decide⟩

/-- Claim C5 as amended: parsing `"(1 + )"` fails with
`InvalidToken(Operator "(")`; with the language's parenthesis symbols,
parsing `"🜄1 + 🜂"` fails with `InvalidToken(CloseParen)`. -/
theorem claim5_amended :
    parseExprStr defaultParser "(1 + )" = perr (.InvalidToken (.Operator "(")) ∧
    parseExprStr defaultParser "🜄1 + 🜂" = perr (.InvalidToken .CloseParen) :=
  ⟨rfl, rfl⟩

/-- Claim C6: the tokenizer maps the alchemical symbols to the structural
tokens — every occurrence outside comments of 🜙 lexes to `Def`, 🜹 to
`Extern`, 🜄 to `OpenParen`, 🜂 to `CloseParen`, 🜌 to `Comma` — and these
symbols (with `;` for `Delimiter`) are the only lexemes producing those
token kinds: the number of such tokens equals the number of occurrences of
the corresponding character in the comment-stripped input. -/
theorem claim6_alchemical_tokens :
    ∀ (input : List Char) (ts : List Token), lexTokens input = some ts →
      ts.count .Def = (preprocess input).count '🜙' ∧
      ts.count .Extern = (preprocess input).count '🜹' ∧
      ts.count .OpenParen = (preprocess input).count '🜄' ∧
      ts.count .CloseParen = (preprocess input).count '🜂' ∧
      ts.count .Comma = (preprocess input).count '🜌' ∧
      ts.count .Delimiter = (preprocess input).count ';' := by
  intro input ts h
  unfold lexTokens at h
  exact ⟨count_def_eq _ _ _ h, count_extern_eq _ _ _ h, count_openParen_eq _ _ _ h,
    count_closeParen_eq _ _ _ h, count_comma_eq _ _ _ h, count_delimiter_eq _ _ _ h⟩

/-- Claim C6, witness at the input `"🜙🜹🜄🜂🜌;"`. -/
theorem claim6_witness :
    lexTokens "🜙🜹🜄🜂🜌;".data =
      some [Token.Def, .Extern, .OpenParen, .CloseParen, .Comma, .Delimiter] ∧
    ([Token.Def, .Extern, .OpenParen, .CloseParen, .Comma, .Delimiter].count Token.Def =
      (preprocess "🜙🜹🜄🜂🜌;".data).count '🜙' ∧
    [Token.Def, .Extern, .OpenParen, .CloseParen, .Comma, .Delimiter].count Token.Extern =
      (preprocess "🜙🜹🜄🜂🜌;".data).count '🜹' ∧
    [Token.Def, .Extern, .OpenParen, .CloseParen, .Comma, .Delimiter].count Token.OpenParen =
      (preprocess "🜙🜹🜄🜂🜌;".data).count '🜄' ∧
    [Token.Def, .Extern, .OpenParen, .CloseParen, .Comma, .Delimiter].count Token.CloseParen =
      (preprocess "🜙🜹🜄🜂🜌;".data).count '🜂' ∧
    [Token.Def, .Extern, .OpenParen, .CloseParen, .Comma, .Delimiter].count Token.Comma =
      (preprocess "🜙🜹🜄🜂🜌;".data).count '🜌' ∧
    [Token.Def, .Extern, .OpenParen, .CloseParen, .Comma, .Delimiter].count Token.Delimiter =
      (preprocess "🜙🜹🜄🜂🜌;".data).count ';') :=
  ⟨rfl, claim6_alchemical_tokens "🜙🜹🜄🜂🜌;".data _ rfl⟩

/-- Claim C7: there is a token input on which `parse_prototype` succeeds
while silently discarding a non-`Ident` token in parameter position — on
the tokens of `f🜄1🜂` (a `Number` in parameter position) it returns the
prototype with name `"f"` and an empty parameter list, the `Number 1`
token consumed without any error. -/
theorem claim7_prototype_discard :
    lexStr "f🜄1🜂" = some [Token.Ident "f", .OpenParen, .Number 1, .CloseParen] ∧
    parsePrototype defaultParser 5 [Token.Ident "f", .OpenParen, .Number 1, .CloseParen] =
      pok ⟨"f", []⟩ [] :=
  ⟨rfl, rfl⟩

/-- Claim C8: in `parse_rhs`, an operator token whose symbol is not in the
precedence table makes the parse fail with `InvalidOperator` carrying that
symbol instead of ending the expression; in particular parsing `"x : 1"`
fails with `InvalidOperator(":")`. -/
theorem claim8_invalid_operator :
    (∀ (p : Parser) (fuel prec : Nat) (lhs : Expression) (op : String)
        (rest : List Token),
        p.operatorPrecedence op = none →
        parseRhs p (fuel + 1) prec lhs (.Operator op :: rest) =
          perr (.InvalidOperator op)) ∧
    parseExprStr defaultParser "x : 1" = perr (.InvalidOperator ":") := by
  constructor
  · intro p fuel prec lhs op rest h
    simp only [parseRhs, h]
  · rfl

/-- Claim C8, witness: the table of the default parser has no entry for
`":"`, and `parse_rhs` fails on it. -/
theorem claim8_witness :
    defaultParser.operatorPrecedence ":" = none ∧
    parseRhs defaultParser 1 0 (.Variable "x") [.Operator ":", .Number 1] =
      perr (.InvalidOperator ":") :=
  ⟨rfl, claim8_invalid_operator.1 defaultParser 0 0 (.Variable "x") ":"
    [.Number 1] rfl⟩

/-- Claim C9: a top-level item starting with a token that is neither `Def`
nor `Extern` nor `Delimiter` is parsed as a bare expression and wrapped as
an `ASTNode.Function` whose prototype has empty name and empty parameter
list; in particular parsing `"1;"` yields exactly one such node with body
`Literal(1.0)`. -/
theorem claim9_implicit_lambda :
    (∀ (p : Parser) (fuel : Nat) (tok : Token) (rest : List Token),
        tok ≠ .Def → tok ≠ .Extern → tok ≠ .Delimiter →
        parse p (fuel + 2) (tok :: rest) =
          consNode
            (pbind (parseExpr p fuel (tok :: rest)) fun body ts =>
              pok (.Function ⟨⟨"", []⟩, body⟩) ts)
            (fun r => parse p (fuel + 1) r)) ∧
    parseStr defaultParser "1;" =
      some (.ok [.Function ⟨⟨"", []⟩, .Literal 1⟩]) := by
  constructor
  · intro p fuel tok rest hd he hdel
    cases tok with
    | Def => exact absurd rfl hd
    | Extern => exact absurd rfl he
    | Delimiter => exact absurd rfl hdel
    | OpenParen => rfl
    | CloseParen => rfl
    | Comma => rfl
    | Ident s => rfl
    | Operator s => rfl
    | Number v => rfl
  · rfl

/-- Claim C9, witness at the single token `Number 1`. -/
theorem claim9_witness :
    (Token.Number 1 ≠ .Def) ∧ (Token.Number 1 ≠ .Extern) ∧
    (Token.Number 1 ≠ .Delimiter) ∧
    parse defaultParser 2 [Token.Number 1] =
      consNode
        (pbind (parseExpr defaultParser 0 [Token.Number 1]) fun body ts =>
          pok (.Function ⟨⟨"", []⟩, body⟩) ts)
        (fun r => parse defaultParser 1 r) :=
  ⟨by decide, by decide, by decide,
    claim9_implicit_lambda.1 defaultParser 0 (.Number 1) [] (by decide)
      (by decide) (by decide)⟩

/-- Claim C10, counterexample: the tokenizer is not total — the
Arabic-Indic digit `١` (U+0661) is in `\p{Nd}`, so it matches the `number`
rule (and no earlier alternative), but the float parser accepts only ASCII
digits, so `lex` reaches the `expect("failed to parse number!")` failure
(modelled as `none`) instead of returning a token sequence. -/
theorem claim10_counterexample :
    lex "١".data = none ∧ (lex "١".data).isSome ≠ true :=
  ⟨rfl, by decide⟩

/-- Claim C10 as amended: the unknown-token panic is unreachable (every
`TOKEN_RE` alternative carries a named capture group, and a character
matching no alternative is whitespace, which the match iterator skips), but
the numeric-parse failure is reachable — a non-ASCII `\p{Nd}` digit matches
the `number` rule while `f64::from_str` rejects it, as on the input `"١"`;
on every input whose digit-class characters outside comments are all ASCII,
`lex` returns a token sequence. -/
theorem claim10_amended :
    lex "١".data = none ∧
    ∀ (input : List Char),
      (∀ x ∈ preprocess input, isNd x = true → x.isDigit = true) →
      (lex input).isSome = true := by
  refine ⟨rfl, ?_⟩
  intro input hascii
  unfold lex lexTokens
  have h := scanTokens_isSome (preprocess input).length (preprocess input)
    (Nat.le_refl _) hascii
  cases hx : scanTokens (preprocess input).length (preprocess input) with
  | none => rw [hx] at h; cases h
  | some ts => rfl

/-- Claim C10, witness for the amended statement at an input exercising
every token class, with a non-ASCII digit only inside a comment. -/
theorem claim10_witness :
    (∀ x ∈ preprocess "🜙f🜄x🜌1.5🜂 ? #٣\n🜹;".data, isNd x = true → x.isDigit = true) ∧
    (lex "🜙f🜄x🜌1.5🜂 ? #٣\n🜹;".data).isSome = true :=
  ⟨by decide, (claim10_amended.2 "🜙f🜄x🜌1.5🜂 ? #٣\n🜹;".data (by decide))⟩

/-! ### Unit checks mirroring the crate's test suite

The parser tests of `src/parser.rs` are written with ASCII keywords and
punctuation, which the wizard-symbol lexer no longer maps to the structural
tokens; below, the well-formed inputs are written with the alchemical
symbols (as in the lexer's own `lex_works` test), and the error-path tests
are kept verbatim where they still hold. -/

example : parseExprStr defaultParser "1 + " = perr .UnexpectedEOF := rfl

example : parseStr defaultParser "🜙add🜄x🜌y🜂x + y;" =
    some (.ok [.Function ⟨⟨"add", ["x", "y"]⟩,
      .Binary "+" (.Variable "x") (.Variable "y")⟩]) := rfl

example : parseStr defaultParser "🜙one🜄🜂1.0;" =
    some (.ok [.Function ⟨⟨"one", []⟩, .Literal 1⟩]) := rfl

example : parseStr defaultParser "🜹sin🜄x🜂;" =
    some (.ok [.Extern ⟨"sin", ["x"]⟩]) := rfl

example : parseExprStr defaultParser "add🜄1🜌 2🜂" =
    pok (.Call "add" [.Literal 1, .Literal 2]) [] := rfl

example : parseExprStr defaultParser "one🜄🜂" = pok (.Call "one" []) [] := rfl

example : parseExprStr defaultParser "x + 1 * 🜄2 - 3🜂" =
    pok (.Binary "+" (.Variable "x")
      (.Binary "*" (.Literal 1) (.Binary "-" (.Literal 2) (.Literal 3)))) [] := rfl

end Wizarding
